import Mathlib

/-!
# Verification of the fractal_generator engine

A shallow embedding of the fractal-generation code of this repository
(`fractal_generator.py`, `fractals/mandelbrot.py`, `fractals/julia.py`,
`fractals/koch_snowflake.py`, `fractals/sierpinski.py`) together with
proofs and refutations of the specification's claims about it.

Modelling conventions:
* Python floats are modelled exactly: by `ℚ` where the code only does
  field arithmetic and comparisons (escape-time loops, normalization),
  and by `ℝ` where the code uses `sqrt`, `cos`, `sin`, `log2`
  (geometry of the curve generators, smooth coloring).
* A NumPy 2D array is a row-major `List (List α)`.
* `abs(z) > t` on complex numbers is encoded on `ℚ` as
  `absSq z > t*t`, which is equivalent for `t ≥ 0` since both sides of
  the original comparison are nonnegative; the equivalence with the
  real statement `Real.sqrt (absSq z) > t` is proved below
  (`FractalGen.bailout_iff_abs_gt`).
* `np.log2 y` for `y ≤ 0` yields NaN (or `-inf` at `y = 0`), i.e. no
  real number; a pixel value produced through such a computation is
  modelled as `none : Option ℝ`.
* PIL's `ImageDraw` primitives come from an external library; which
  pixels a primitive touches is irrelevant to every claim, so the
  rasterization of a line / rectangle / polygon is an abstract
  parameter (`Raster`).  What matters — and it is all the claims use —
  is that drawing only recolors pixels and never changes the size of
  the image, which the embedding makes structural.
* Python's `random.randint(0, 2)` draws in the chaos game are an
  explicit input stream `choice : ℕ → Fin 3`.
-/

namespace FractalGen

/-! ## Complex arithmetic on ℚ × ℚ (Python's builtin `complex`) -/

/-- Complex addition, `u + v`. -/
def cAdd (u v : ℚ × ℚ) : ℚ × ℚ := (u.1 + v.1, u.2 + v.2)

/-- Complex multiplication, `u * v`. -/
def cMul (u v : ℚ × ℚ) : ℚ × ℚ :=
  (u.1 * v.1 - u.2 * v.2, u.1 * v.2 + u.2 * v.1)

/-- Squared modulus `|z|²`.  `abs(z)` in the Python source is
`Real.sqrt (absSq z)`. -/
def absSq (z : ℚ × ℚ) : ℚ := z.1 * z.1 + z.2 * z.2

/-- One escape-time update `z*z + c` (mandelbrot.py line 47,
julia.py line 25). -/
def stepZ (z c : ℚ × ℚ) : ℚ × ℚ := cAdd (cMul z z) c

/-- The orbit: `iterZ c z0 k` is `z` after `k` updates starting
from `z0`. -/
def iterZ (c z0 : ℚ × ℚ) : ℕ → ℚ × ℚ
  | 0 => z0
  | k + 1 => stepZ (iterZ c z0 k) c

/-! The Python loop
`for n in range(m): if bail(z): break; z = z*z + c`
(mandelbrot.py lines 44-47, julia.py lines 22-25).

`escapeLoop bail c idx rem z` runs the remaining iterations
`idx, idx+1, …, idx+rem-1`; it returns the pair `(n, z)` that the
Python loop leaves behind: on `break` at index `n`, the pair at the
break; on normal exhaustion, `n` is the last index ran
(`m - 1` for a full loop of `m ≥ 1` iterations — Python's loop
variable keeps its final value). -/

def escapeLoop (bail : ℚ × ℚ → Bool) (c : ℚ × ℚ) :
    ℕ → ℕ → ℚ × ℚ → ℕ × (ℚ × ℚ)
  | idx, 0, z => (idx - 1, z)
  | idx, rem + 1, z =>
      if bail z then (idx, z) else escapeLoop bail c (idx + 1) rem (stepZ z c)

/-! ## np.linspace -/

/-- Embeds `np.linspace a b n`: `n` evenly spaced samples from `a` to `b`
inclusive (`[a]` when `n = 1`). -/
def linspace (a b : ℚ) (n : ℕ) : List ℚ :=
  if n = 1 then [a]
  else (List.range n).map (fun i : ℕ => a + (i : ℚ) * (b - a) / ((n : ℚ) - 1))

/-! ## PIL images, drawing, grayscale conversion -/

/-- An RGB pixel; channels are exact numbers standing for the byte
values 0..255. -/
structure RGB where
  r : ℚ
  g : ℚ
  b : ℚ

def black : RGB := ⟨0, 0, 0⟩

def white : RGB := ⟨255, 255, 255⟩

/-- A PIL image: a `width × height` canvas of pixels.
`Image.new('RGB', (width, height), 'black')` is `newImage w h black`. -/
structure Img where
  w : ℕ
  h : ℕ
  px : ℕ → ℕ → RGB

def newImage (w h : ℕ) (c : RGB) : Img := ⟨w, h, fun _ _ => c⟩

/-- The pixel sets touched by PIL's `ImageDraw` primitives.  PIL is an
external library; none of the repository's claims depend on which
pixels a line/rectangle/polygon rasterizes to, only that drawing
recolors pixels without resizing the canvas, so the pixel membership
tests are abstract parameters.  `line a b lw i j` says pixel `(i, j)`
(row `i`, column `j`) lies on the width-`lw` line from `a` to `b`;
similarly for `rect` (two corners) and `poly` (vertex list). -/
structure Raster where
  line : (ℤ × ℤ) → (ℤ × ℤ) → ℕ → ℕ → ℕ → Bool
  rect : (ℤ × ℤ) → (ℤ × ℤ) → ℕ → ℕ → Bool
  poly : List (ℤ × ℤ) → ℕ → ℕ → Bool

/-- A concrete rasterization instance (a pen that touches no pixel),
used only to instantiate closed statements at concrete inputs. -/
def trivRaster : Raster :=
  ⟨fun _ _ _ _ _ => false, fun _ _ _ _ => false, fun _ _ _ => false⟩

/-- Embeds `draw.line([a, b], fill, width)`. -/
def drawLine (R : Raster) (img : Img) (a b : ℤ × ℤ) (fill : RGB)
    (lw : ℕ) : Img :=
  { img with px := fun i j => if R.line a b lw i j then fill else img.px i j }

/-- Embeds `draw.rectangle([a, b], fill)`. -/
def drawRect (R : Raster) (img : Img) (a b : ℤ × ℤ) (fill : RGB) : Img :=
  { img with px := fun i j => if R.rect a b i j then fill else img.px i j }

/-- Embeds `draw.polygon(points, fill, outline)` (fill and outline are the
same color at every call site of the source). -/
def drawPolygon (R : Raster) (img : Img) (pts : List (ℤ × ℤ))
    (fill : RGB) : Img :=
  { img with px := fun i j => if R.poly pts i j then fill else img.px i j }

/-- Embeds `np.mean(np.array(img), axis=2)`: the `(height, width)` row-major
grayscale array of an image. -/
def grayscale (img : Img) : List (List ℚ) :=
  (List.range img.h).map (fun i =>
    (List.range img.w).map (fun j =>
      ((img.px i j).r + (img.px i j).g + (img.px i j).b) / 3))

/-- Python's `int()` on a float: truncation toward zero. -/
noncomputable def pyInt (x : ℝ) : ℤ := if 0 ≤ x then ⌊x⌋ else -(⌊-x⌋)

/-- The shape of a 2D array: its row count together with the length of
each row.  `dims f = (h, List.replicate h w)` says `f` is a dense
`h × w` array. -/
def dims {α : Type} (f : List (List α)) : ℕ × List ℕ :=
  (f.length, f.map List.length)

end FractalGen

namespace MandelbrotGenerator

open FractalGen

/-- The bailout test `abs(z) > escape_radius` of mandelbrot.py line 45,
squared-modulus encoding (see `FractalGen.bailout_iff_abs_gt`). -/
def bailout (z : ℚ × ℚ) (escape_radius : ℚ) : Bool :=
  absSq z > escape_radius * escape_radius

/-- The per-pixel escape loop of mandelbrot.py lines 42-47:
`z = 0`, then `for n in range(max_iterations): if abs(z) > escape_radius:
break; z = z*z + c`.  Returns the `(n, z)` left behind by the loop. -/
def mandelLoop (c : ℚ × ℚ) (max_iterations : ℕ) (escape_radius : ℚ) :
    ℕ × (ℚ × ℚ) :=
  escapeLoop (fun z => bailout z escape_radius) c 0 max_iterations (0, 0)

/-- The smooth coloring value `n + 1 - np.log2(np.log2(abs(z)))` of
mandelbrot.py line 54. -/
noncomputable def smoothValue (n : ℕ) (z : ℚ × ℚ) : ℝ :=
  (n : ℝ) + 1 - Real.logb 2 (Real.logb 2 (Real.sqrt ((absSq z : ℚ) : ℝ)))

/-- The coloring of one pixel (mandelbrot.py lines 49-54): `0` when the
loop's final `n` equals `max_iterations - 1`, else the smooth value.
The smooth value is `none` (NaN / -inf — not a real number) exactly
when `abs(z) ≤ 1`, i.e. `absSq z ≤ 1`, since then the inner
`np.log2(abs(z))` is nonpositive and the outer `np.log2` leaves its
domain.  The source has no clamp guarding this. -/
noncomputable def pixelValue (c : ℚ × ℚ) (max_iterations : ℕ)
    (escape_radius : ℚ) : Option ℝ :=
  let p := mandelLoop c max_iterations escape_radius
  if p.1 = max_iterations - 1 then some 0
  else if absSq p.2 ≤ 1 then none
  else some (smoothValue p.1 p.2)

/-- Embeds `MandelbrotGenerator.generate` (mandelbrot.py lines 15-30 plus the
`_mandelbrot_set` kernel, lines 32-56): grid the region with
`np.linspace`/`np.meshgrid` (`C[i][j] = x[j] + 1j*y[i]`) and color
every pixel. -/
noncomputable def generate (width height : ℕ) (x_min x_max y_min y_max : ℚ)
    (max_iterations : ℕ) (escape_radius : ℚ) : List (List (Option ℝ)) :=
  let x := linspace x_min x_max width
  let y := linspace y_min y_max height
  y.map (fun yi => x.map (fun xj => pixelValue (xj, yi) max_iterations escape_radius))

end MandelbrotGenerator

namespace JuliaGenerator

open FractalGen

/-- The bailout test of julia.py line 23.  It is the literal constant
`abs(z) > 2`: `JuliaGenerator.generate` has no `escape_radius`
parameter at all (any supplied one lands in `**kwargs`, unused). -/
def bailout (z : ℚ × ℚ) : Bool := absSq z > 4

/-- The per-pixel loop of julia.py lines 21-26: `z = Z[i, j]`, then
`for n in range(max_iterations): if abs(z) > 2: break; z = z*z + c`,
and the pixel is assigned the plain loop index `n`
(`result[i, j] = n`). -/
def pixelValue (z0 c : ℚ × ℚ) (max_iterations : ℕ) : ℚ :=
  ((escapeLoop (fun z => bailout z) c 0 max_iterations z0).1 : ℚ)

/-- Embeds `JuliaGenerator.generate` (julia.py lines 6-28): grid the region,
iterate every pixel from `z = pixel` with constant `c`. -/
def generate (width height : ℕ) (x_min x_max y_min y_max : ℚ)
    (max_iterations : ℕ) (c_real c_imag : ℚ) : List (List ℚ) :=
  let x := linspace x_min x_max width
  let y := linspace y_min y_max height
  y.map (fun yi => x.map (fun xj => pixelValue (xj, yi) (c_real, c_imag) max_iterations))

/-- What the spec's sentence for claim C3 would demand of Julia:
Modelled from the spec: a Julia bailout test parameterized by the
request's `escape_radius` (the spec says the predicate is
`|z| > escape_radius` "for Mandelbrot/Julia").  The source hardcodes
`2` instead; this definition exists only to be compared with the
source's `JuliaGenerator.bailout`. -/
def bailoutSpec (z : ℚ × ℚ) (escape_radius : ℚ) : Bool :=
  absSq z > escape_radius * escape_radius

end JuliaGenerator

namespace KochGenerator

open FractalGen

/-- Embeds `KochGenerator._koch_curve` (koch_snowflake.py lines 61-101):
depth 0 returns the two endpoints; otherwise trisect, raise the
equilateral peak on the middle third (rotation by 60°), recurse on the
four sub-segments and concatenate with the shared endpoints
de-duplicated (`curve[:-1]` three times). -/
noncomputable def koch_curve : (ℝ × ℝ) → (ℝ × ℝ) → ℕ → List (ℝ × ℝ)
  | start, stop, 0 => [start, stop]
  | p1, p5, d + 1 =>
      let p2 : ℝ × ℝ := (p1.1 + (p5.1 - p1.1) / 3, p1.2 + (p5.2 - p1.2) / 3)
      let p4 : ℝ × ℝ :=
        (p1.1 + 2 * (p5.1 - p1.1) / 3, p1.2 + 2 * (p5.2 - p1.2) / 3)
      let dx := p4.1 - p2.1
      let dy := p4.2 - p2.2
      let p3 : ℝ × ℝ :=
        (p2.1 + dx * Real.cos (Real.pi / 3) - dy * Real.sin (Real.pi / 3),
         p2.2 + dx * Real.sin (Real.pi / 3) + dy * Real.cos (Real.pi / 3))
      (koch_curve p1 p2 d).dropLast ++ (koch_curve p2 p3 d).dropLast ++
        (koch_curve p3 p4 d).dropLast ++ koch_curve p4 p5 d

/-- Embeds `KochGenerator._rotate_points` (koch_snowflake.py lines 103-127). -/
noncomputable def rotate_points (points : List (ℝ × ℝ)) (angle_degrees : ℝ)
    (center : ℝ × ℝ) : List (ℝ × ℝ) :=
  let angle := angle_degrees * Real.pi / 180
  let cos_a := Real.cos angle
  let sin_a := Real.sin angle
  points.map (fun p =>
    let x := p.1 - center.1
    let y := p.2 - center.2
    (x * cos_a - y * sin_a + center.1, x * sin_a + y * cos_a + center.2))

/-- Embeds `KochGenerator.generate` (koch_snowflake.py lines 8-59): build the
initial triangle (optionally rotated), generate a Koch curve per side
(last point of each dropped to avoid duplication), close the polyline
and draw its segments on a black canvas, then convert to grayscale. -/
noncomputable def generate (R : Raster) (width height depth : ℕ)
    (size start_x start_y angle : ℝ) (line_width : ℕ) : List (List ℚ) :=
  let img := newImage width height black
  let center_x : ℝ := ((width / 2 : ℕ) : ℝ) + start_x
  let center_y : ℝ := ((height / 2 : ℕ) : ℝ) + start_y
  let triangle_height := size * Real.sqrt 3 / 2
  let vertices : List (ℝ × ℝ) :=
    [(center_x - size / 2, center_y - triangle_height / 3),
     (center_x + size / 2, center_y - triangle_height / 3),
     (center_x, center_y + 2 * triangle_height / 3)]
  let vertices :=
    if angle ≠ 0 then rotate_points vertices angle (center_x, center_y)
    else vertices
  let all_points : List (ℝ × ℝ) :=
    (List.range 3).foldl (fun acc i =>
      acc ++ (koch_curve (vertices.getD i (0, 0))
        (vertices.getD ((i + 1) % 3) (0, 0)) depth).dropLast) []
  let img :=
    if 0 < all_points.length ∧ 1 < all_points.length then
      let points_list := all_points.map (fun p => (pyInt p.1, pyInt p.2))
      let closed := points_list ++ [points_list.getD 0 (0, 0)]
      (List.range (closed.length - 1)).foldl
        (fun im i =>
          drawLine R im (closed.getD i (0, 0)) (closed.getD (i + 1) (0, 0))
            white line_width)
        img
    else img
  grayscale img

end KochGenerator

namespace SierpinskiGenerator

open FractalGen

/-- Embeds `SierpinskiGenerator._draw_sierpinski_recursive` (sierpinski.py
lines 100-123): depth 0 fills the triangle; otherwise recurse on the
three corner sub-triangles formed by the edge midpoints, drawing onto
the shared canvas in sequence. -/
noncomputable def draw_sierpinski_recursive (R : Raster) :
    Img → List (ℝ × ℝ) → ℕ → Img
  | img, vertices, 0 =>
      drawPolygon R img (vertices.map (fun v => (pyInt v.1, pyInt v.2))) white
  | img, vertices, d + 1 =>
      let v0 := vertices.getD 0 (0, 0)
      let v1 := vertices.getD 1 (0, 0)
      let v2 := vertices.getD 2 (0, 0)
      let m01 : ℝ × ℝ := ((v0.1 + v1.1) / 2, (v0.2 + v1.2) / 2)
      let m12 : ℝ × ℝ := ((v1.1 + v2.1) / 2, (v1.2 + v2.2) / 2)
      let m20 : ℝ × ℝ := ((v2.1 + v0.1) / 2, (v2.2 + v0.2) / 2)
      let img1 := draw_sierpinski_recursive R img [v0, m01, m20] d
      let img2 := draw_sierpinski_recursive R img1 [m01, v1, m12] d
      draw_sierpinski_recursive R img2 [m20, m12, v2] d

/-- The centered triangle vertices every Sierpinski method starts from
(sierpinski.py lines 30-39 and 59-68, identical code). -/
noncomputable def triangleVertices (width height : ℕ)
    (size start_x start_y : ℝ) : List (ℝ × ℝ) :=
  let center_x : ℝ := ((width / 2 : ℕ) : ℝ) + start_x
  let center_y : ℝ := ((height / 2 : ℕ) : ℝ) + start_y
  let triangle_height := size * Real.sqrt 3 / 2
  [(center_x - size / 2, center_y - triangle_height / 3),
   (center_x + size / 2, center_y - triangle_height / 3),
   (center_x, center_y + 2 * triangle_height / 3)]

/-- Embeds `SierpinskiGenerator._recursive_method` (sierpinski.py
lines 23-50). -/
noncomputable def recursive_method (R : Raster) (width height depth : ℕ)
    (size start_x start_y : ℝ) : List (List ℚ) :=
  grayscale (draw_sierpinski_recursive R (newImage width height black)
    (triangleVertices width height size start_x start_y) depth)

/-- The chaos-game current point (sierpinski.py lines 70-82):
`chaosPoint … 0` is the starting point `(center_x, center_y)`, and
`chaosPoint … (i+1)` is the current point after loop iteration `i`
moved halfway toward the vertex drawn at iteration `i`. -/
noncomputable def chaosPoint (width height : ℕ) (size start_x start_y : ℝ)
    (choice : ℕ → Fin 3) : ℕ → ℝ × ℝ
  | 0 => (((width / 2 : ℕ) : ℝ) + start_x, ((height / 2 : ℕ) : ℝ) + start_y)
  | i + 1 =>
      let p := chaosPoint width height size start_x start_y choice i
      let t := (triangleVertices width height size start_x start_y).getD
        (choice i) (0, 0)
      ((p.1 + t.1) / 2, (p.2 + t.2) / 2)

/-- The points the chaos game records (sierpinski.py lines 84-90): the
current point after iteration `i`, for every `i > 100` (the burn-in
guard `if i > 100`). -/
noncomputable def recordedPoints (width height : ℕ)
    (size start_x start_y : ℝ) (choice : ℕ → Fin 3)
    (num_points : ℕ) : List (ℝ × ℝ) :=
  (List.range num_points).filterMap (fun i =>
    if 100 < i then
      some (chaosPoint width height size start_x start_y choice (i + 1))
    else none)

/-- Embeds `SierpinskiGenerator._chaos_game_method` (sierpinski.py
lines 52-98): run the chaos game for `num_points` iterations, after
burn-in stamping a 3×3 square at each in-bounds recorded point, then
convert to grayscale. -/
noncomputable def chaos_game_method (R : Raster) (width height : ℕ)
    (size start_x start_y : ℝ) (num_points : ℕ)
    (choice : ℕ → Fin 3) : List (List ℚ) :=
  let img :=
    (List.range num_points).foldl (fun im i =>
      if 100 < i then
        let p := chaosPoint width height size start_x start_y choice (i + 1)
        let x := pyInt p.1
        let y := pyInt p.2
        if 0 ≤ x ∧ x < (width : ℤ) ∧ 0 ≤ y ∧ y < (height : ℤ) then
          drawRect R im (x - 1, y - 1) (x + 1, y + 1) white
        else im
      else im) (newImage width height black)
  grayscale img

/-- Embeds `SierpinskiGenerator.generate` (sierpinski.py lines 13-21):
dispatch on the `method` string — exactly `'chaos_game'` selects the
chaos game, anything else falls to the recursive method. -/
noncomputable def generate (R : Raster) (width height depth : ℕ)
    (size start_x start_y : ℝ) (method : String) (num_points : ℕ)
    (choice : ℕ → Fin 3) : List (List ℚ) :=
  if method = "chaos_game" then
    chaos_game_method R width height size start_x start_y num_points choice
  else
    recursive_method R width height depth size start_x start_y

end SierpinskiGenerator

namespace FractalGenerator

/-- The normalization step of `FractalGenerator.apply_colormap`
(fractal_generator.py lines 81-84): when `data.max() > data.min()`,
map elementwise through `(v - min) / (max - min)`; otherwise return
the data unchanged (`normalized = data`).  `data.max()` / `data.min()`
are the maximum / minimum over every entry of the 2D array.  (NumPy
raises on an empty array; an empty `data` is returned unchanged here,
and every claim below concerns nonempty fields.) -/
def normalize (data : List (List ℚ)) : List (List ℚ) :=
  match data.flatten with
  | [] => data
  | x :: xs =>
      let mx := xs.foldl max x
      let mn := xs.foldl min x
      if mn < mx then data.map (List.map (fun v => (v - mn) / (mx - mn)))
      else data

/-- The elementwise linear map `(v - min) / (max - min)` applied by
`normalize` in its rescaling branch (fractal_generator.py line 82). -/
def linmap (mn mx v : ℚ) : ℚ := (v - mn) / (mx - mn)

end FractalGenerator

/-! # Helper lemmas -/

namespace FractalGen

theorem iterZ_shift (c z : ℚ × ℚ) :
    ∀ k, iterZ c (stepZ z c) k = iterZ c z (k + 1) := by
  intro k
  induction k with
  | zero => simp [iterZ]
  | succ j jh => simp [iterZ, jh]

theorem absSq_nonneg (z : ℚ × ℚ) : 0 ≤ absSq z := by
  have h1 : 0 ≤ z.1 * z.1 := mul_self_nonneg z.1
  have h2 : 0 ≤ z.2 * z.2 := mul_self_nonneg z.2
  simpa [absSq] using add_nonneg h1 h2

/-- The encoding of the source's comparison `abs(z) > t` as
`absSq z > t*t` agrees with the real-number statement
`Real.sqrt |z|² > t` whenever `t ≥ 0`. -/
theorem bailout_iff_abs_gt (z : ℚ × ℚ) (t : ℚ) (ht : 0 ≤ t) :
    absSq z > t * t ↔ (t : ℝ) < Real.sqrt ((absSq z : ℚ) : ℝ) := by
  rw [Real.lt_sqrt (by exact_mod_cast ht)]
  constructor
  · intro h
    have : ((t * t : ℚ) : ℝ) < ((absSq z : ℚ) : ℝ) := by exact_mod_cast h
    calc (t : ℝ) ^ 2 = ((t * t : ℚ) : ℝ) := by push_cast; ring
      _ < _ := this
  · intro h
    have : ((t * t : ℚ) : ℝ) < ((absSq z : ℚ) : ℝ) := by
      calc ((t * t : ℚ) : ℝ) = (t : ℝ) ^ 2 := by push_cast; ring
        _ < _ := h
    exact_mod_cast this

/-- If the bailout test fails on the whole orbit segment, the loop
exhausts its `rem` iterations: it ends at index `idx + rem - 1` with
the fully iterated `z`. -/
theorem escapeLoop_no_bail (bail : ℚ × ℚ → Bool) (c : ℚ × ℚ) :
    ∀ (rem idx : ℕ) (z : ℚ × ℚ),
      (∀ k, k < rem → bail (iterZ c z k) = false) →
      escapeLoop bail c idx rem z = (idx + rem - 1, iterZ c z rem) := by
  intro rem
  induction rem with
  | zero => intro idx z _; simp [escapeLoop, iterZ]
  | succ r ih =>
      intro idx z h
      have h0 : bail z = false := by simpa [iterZ] using h 0 (Nat.succ_pos r)
      have hrest : ∀ k, k < r → bail (iterZ c (stepZ z c) k) = false := by
        intro k hk
        rw [iterZ_shift]
        exact h (k + 1) (Nat.succ_lt_succ hk)
      have hit := iterZ_shift c z r
      have hstep : escapeLoop bail c idx (r + 1) z
          = escapeLoop bail c (idx + 1) r (stepZ z c) := by
        simp [escapeLoop, h0]
      rw [hstep, ih (idx + 1) _ hrest, hit]
      have harith : idx + 1 + r - 1 = idx + (r + 1) - 1 := by omega
      rw [harith]

/-- The loop either runs to exhaustion (final index `idx + rem - 1`)
or stops on a state where the bailout test fired. -/
theorem escapeLoop_exhaust_or_bail (bail : ℚ × ℚ → Bool) (c : ℚ × ℚ) :
    ∀ (rem idx : ℕ) (z : ℚ × ℚ),
      (escapeLoop bail c idx rem z).1 = idx + rem - 1 ∨
        bail (escapeLoop bail c idx rem z).2 = true := by
  intro rem
  induction rem with
  | zero => intro idx z; left; simp [escapeLoop]
  | succ r ih =>
      intro idx z
      by_cases hb : bail z = true
      · right; simp [escapeLoop, hb]
      · have hb' : bail z = false := by simpa using hb
        have hstep : escapeLoop bail c idx (r + 1) z
            = escapeLoop bail c (idx + 1) r (stepZ z c) := by
          simp [escapeLoop, hb']
        rcases ih (idx + 1) (stepZ z c) with h | h
        · left
          rw [hstep, h]
          omega
        · right
          rw [hstep]
          exact h

/-- If the bailout test first fires at orbit index `k < rem`, the loop
breaks there: it returns index `idx + k` and the orbit point at `k`. -/
theorem escapeLoop_first_bail (bail : ℚ × ℚ → Bool) (c : ℚ × ℚ) :
    ∀ (k rem idx : ℕ) (z : ℚ × ℚ), k < rem →
      (∀ j, j < k → bail (iterZ c z j) = false) →
      bail (iterZ c z k) = true →
      escapeLoop bail c idx rem z = (idx + k, iterZ c z k) := by
  intro k
  induction k with
  | zero =>
      intro rem idx z hk _ hbail
      obtain ⟨r, rfl⟩ := Nat.exists_eq_succ_of_ne_zero (Nat.pos_iff_ne_zero.mp hk)
      have hb : bail z = true := by simpa [iterZ] using hbail
      simp [escapeLoop, hb, iterZ]
  | succ j ih =>
      intro rem idx z hk hpre hbail
      obtain ⟨r, rfl⟩ := Nat.exists_eq_succ_of_ne_zero
        (Nat.pos_iff_ne_zero.mp (Nat.lt_of_le_of_lt (Nat.zero_le _) hk))
      have h0 : bail z = false := by simpa [iterZ] using hpre 0 (Nat.succ_pos j)
      have hstep : escapeLoop bail c idx (r + 1) z
          = escapeLoop bail c (idx + 1) r (stepZ z c) := by
        simp [escapeLoop, h0]
      have hpre' : ∀ i, i < j → bail (iterZ c (stepZ z c) i) = false := by
        intro i hi
        rw [iterZ_shift]
        exact hpre (i + 1) (Nat.succ_lt_succ hi)
      have hbail' : bail (iterZ c (stepZ z c) j) = true := by
        rw [iterZ_shift]; exact hbail
      rw [hstep, ih r (idx + 1) (stepZ z c) (Nat.lt_of_succ_lt_succ hk) hpre' hbail',
        iterZ_shift]
      have harith : idx + 1 + j = idx + (j + 1) := by omega
      rw [harith]

theorem linspace_length (a b : ℚ) (n : ℕ) : (linspace a b n).length = n := by
  by_cases h : n = 1
  · simp [linspace, h]
  · rw [linspace, if_neg h, List.length_map, List.length_range]

theorem grayscale_length (img : Img) : (grayscale img).length = img.h := by
  rw [grayscale, List.length_map, List.length_range]

theorem grayscale_row_lengths (img : Img) :
    (grayscale img).map List.length = List.replicate img.h img.w := by
  rw [grayscale, List.map_map]
  have h : ∀ i ∈ List.range img.h,
      (List.length ∘ fun i =>
        (List.range img.w).map (fun j =>
          ((img.px i j).r + (img.px i j).g + (img.px i j).b) / 3)) i = img.w := by
    intro i _
    simp
  rw [List.map_congr_left h, List.map_const', List.length_range]

theorem dims_grayscale (img : Img) :
    dims (grayscale img) = (img.h, List.replicate img.h img.w) := by
  unfold dims
  rw [grayscale_length, grayscale_row_lengths]

theorem dims_grayscale_of (img : Img) (w h : ℕ) (hw : img.w = w)
    (hh : img.h = h) :
    dims (grayscale img) = (h, List.replicate h w) := by
  rw [dims_grayscale, hw, hh]

/-- A fold of drawing steps never changes the canvas size. -/
theorem foldl_preserves_size {α : Type} (g : Img → α → Img)
    (hp : ∀ im x, (g im x).w = im.w ∧ (g im x).h = im.h) :
    ∀ (l : List α) (im : Img),
      (l.foldl g im).w = im.w ∧ (l.foldl g im).h = im.h := by
  intro l
  induction l with
  | nil => intro im; exact ⟨rfl, rfl⟩
  | cons x xs ih =>
      intro im
      have h1 := ih (g im x)
      have h2 := hp im x
      exact ⟨h1.1.trans h2.1, h1.2.trans h2.2⟩

/-- A fold of `drawLine` steps never changes the canvas size
(specialization of `foldl_preserves_size` that unifies easily). -/
theorem foldl_drawLine_size (R : Raster) (fill : RGB) (lw : ℕ)
    (f1 f2 : ℕ → ℤ × ℤ) (l : List ℕ) (im : Img) :
    ((l.foldl (fun im i => drawLine R im (f1 i) (f2 i) fill lw) im).w = im.w ∧
      (l.foldl (fun im i => drawLine R im (f1 i) (f2 i) fill lw) im).h = im.h) :=
  foldl_preserves_size (fun im i => drawLine R im (f1 i) (f2 i) fill lw)
    (fun _ _ => ⟨rfl, rfl⟩) l im

theorem ite_img_w (c : Prop) [Decidable c] (A B : Img) (w : ℕ)
    (hA : A.w = w) (hB : B.w = w) : (if c then A else B).w = w := by
  split
  · exact hA
  · exact hB

theorem ite_img_h (c : Prop) [Decidable c] (A B : Img) (h : ℕ)
    (hA : A.h = h) (hB : B.h = h) : (if c then A else B).h = h := by
  split
  · exact hA
  · exact hB

/-- Shape of a grid built by mapping a row list against a column
list. -/
theorem dims_nested_map {α β γ : Type} (rows : List α) (cols : List β)
    (f : α → β → γ) :
    dims (rows.map (fun r => cols.map (f r)))
      = (rows.length, List.replicate rows.length cols.length) := by
  unfold dims
  refine Prod.ext ?_ ?_
  · simp
  · show (rows.map (fun r => cols.map (f r))).map List.length = _
    rw [List.map_map]
    have h : ∀ r ∈ rows,
        (List.length ∘ fun r => cols.map (f r)) r = cols.length := by
      intro r _
      simp
    rw [List.map_congr_left h, List.map_const']

end FractalGen

namespace KochGenerator

open FractalGen

theorem koch_curve_length (d : ℕ) :
    ∀ a b : ℝ × ℝ, (koch_curve a b d).length = 4 ^ d + 1 := by
  induction d with
  | zero => intro a b; simp [koch_curve]
  | succ n ih =>
      intro a b
      rw [koch_curve]
      simp only [List.length_append, List.length_dropLast, ih]
      rw [Nat.add_sub_cancel]
      ring

theorem koch_generate_dims (R : Raster) (width height depth : ℕ)
    (size start_x start_y angle : ℝ) (line_width : ℕ) :
    dims (generate R width height depth size start_x start_y angle line_width)
      = (height, List.replicate height width) := by
  simp only [generate]
  apply dims_grayscale_of
  · apply ite_img_w
    · exact (foldl_drawLine_size R white line_width _ _ _ _).1
    · rfl
  · apply ite_img_h
    · exact (foldl_drawLine_size R white line_width _ _ _ _).2
    · rfl

end KochGenerator

namespace SierpinskiGenerator

open FractalGen

theorem draw_sierpinski_size (R : Raster) : ∀ (d : ℕ) (img : Img)
    (vs : List (ℝ × ℝ)),
    (draw_sierpinski_recursive R img vs d).w = img.w ∧
      (draw_sierpinski_recursive R img vs d).h = img.h := by
  intro d
  induction d with
  | zero => intro img vs; exact ⟨rfl, rfl⟩
  | succ n ih =>
      intro img vs
      rw [draw_sierpinski_recursive]
      refine ⟨?_, ?_⟩
      · rw [(ih _ _).1, (ih _ _).1, (ih _ _).1]
      · rw [(ih _ _).2, (ih _ _).2, (ih _ _).2]

theorem recursive_method_dims (R : Raster) (width height depth : ℕ)
    (size start_x start_y : ℝ) :
    dims (recursive_method R width height depth size start_x start_y)
      = (height, List.replicate height width) := by
  simp only [recursive_method]
  apply dims_grayscale_of
  · exact (draw_sierpinski_size R depth _ _).1
  · exact (draw_sierpinski_size R depth _ _).2

theorem chaos_game_method_dims (R : Raster) (width height : ℕ)
    (size start_x start_y : ℝ) (num_points : ℕ) (choice : ℕ → Fin 3) :
    dims (chaos_game_method R width height size start_x start_y num_points choice)
      = (height, List.replicate height width) := by
  simp only [chaos_game_method]
  have hstep : ∀ (im : Img) (i : ℕ),
      ((fun im i =>
        if 100 < i then
          let p := chaosPoint width height size start_x start_y choice (i + 1)
          let x := pyInt p.1
          let y := pyInt p.2
          if 0 ≤ x ∧ x < (width : ℤ) ∧ 0 ≤ y ∧ y < (height : ℤ) then
            drawRect R im (x - 1, y - 1) (x + 1, y + 1) white
          else im
        else im) im i).w = im.w ∧
      ((fun im i =>
        if 100 < i then
          let p := chaosPoint width height size start_x start_y choice (i + 1)
          let x := pyInt p.1
          let y := pyInt p.2
          if 0 ≤ x ∧ x < (width : ℤ) ∧ 0 ≤ y ∧ y < (height : ℤ) then
            drawRect R im (x - 1, y - 1) (x + 1, y + 1) white
          else im
        else im) im i).h = im.h := by
    intro im i
    dsimp only
    constructor
    · split
      · split
        · rfl
        · rfl
      · rfl
    · split
      · split
        · rfl
        · rfl
      · rfl
  apply dims_grayscale_of
  · exact (foldl_preserves_size _ hstep _ _).1
  · exact (foldl_preserves_size _ hstep _ _).2

theorem sierpinski_generate_dims (R : Raster) (width height depth : ℕ)
    (size start_x start_y : ℝ) (method : String) (num_points : ℕ)
    (choice : ℕ → Fin 3) :
    dims (generate R width height depth size start_x start_y method
      num_points choice) = (height, List.replicate height width) := by
  rw [generate]
  split
  · exact chaos_game_method_dims R width height size start_x start_y
      num_points choice
  · exact recursive_method_dims R width height depth size start_x start_y

end SierpinskiGenerator

namespace MandelbrotGenerator

open FractalGen

theorem mandelbrot_generate_dims (width height : ℕ) (x_min x_max y_min y_max : ℚ)
    (max_iterations : ℕ) (escape_radius : ℚ) :
    dims (generate width height x_min x_max y_min y_max max_iterations
      escape_radius) = (height, List.replicate height width) := by
  simp only [generate]
  rw [dims_nested_map, linspace_length, linspace_length]

end MandelbrotGenerator

namespace JuliaGenerator

open FractalGen

theorem julia_generate_dims (width height : ℕ) (x_min x_max y_min y_max : ℚ)
    (max_iterations : ℕ) (c_real c_imag : ℚ) :
    dims (generate width height x_min x_max y_min y_max max_iterations
      c_real c_imag) = (height, List.replicate height width) := by
  simp only [generate]
  rw [dims_nested_map, linspace_length, linspace_length]

end JuliaGenerator

/-! # The claims -/

open FractalGen

/-- C1: for every valid request (width ≥ 1, height ≥ 1), the scalar
field returned by each generator's generate method — Mandelbrot,
Julia, Koch snowflake, and Sierpinski under every method selector
(hence both the recursive and the chaos-game method) — is a dense 2D
array with exactly `height` rows and `width` columns. -/
theorem claim_C1 (R : Raster) (width height : ℕ)
    (hw : 1 ≤ width) (hh : 1 ≤ height)
    (x_min x_max y_min y_max : ℚ) (max_iterations : ℕ) (escape_radius : ℚ)
    (c_real c_imag : ℚ) (depth : ℕ) (size start_x start_y angle : ℝ)
    (line_width : ℕ) (method : String) (num_points : ℕ)
    (choice : ℕ → Fin 3) :
    dims (MandelbrotGenerator.generate width height x_min x_max y_min y_max
        max_iterations escape_radius) = (height, List.replicate height width) ∧
    dims (JuliaGenerator.generate width height x_min x_max y_min y_max
        max_iterations c_real c_imag) = (height, List.replicate height width) ∧
    dims (KochGenerator.generate R width height depth size start_x start_y
        angle line_width) = (height, List.replicate height width) ∧
    dims (SierpinskiGenerator.generate R width height depth size start_x
        start_y method num_points choice)
      = (height, List.replicate height width) :=
  ⟨MandelbrotGenerator.mandelbrot_generate_dims width height x_min x_max y_min y_max
      max_iterations escape_radius,
    JuliaGenerator.julia_generate_dims width height x_min x_max y_min y_max
      max_iterations c_real c_imag,
    KochGenerator.koch_generate_dims R width height depth size start_x start_y
      angle line_width,
    SierpinskiGenerator.sierpinski_generate_dims R width height depth size start_x
      start_y method num_points choice⟩

/-- Witness for C1 at a concrete 2×3 request covering all four
generate entry points. -/
theorem claim_C1_witness :
    ((1 ≤ 2 ∧ 1 ≤ 3) ∧
    dims (MandelbrotGenerator.generate 2 3 (-2) 2 (-2) 2 5 2)
      = (3, List.replicate 3 2) ∧
    dims (JuliaGenerator.generate 2 3 (-2) 2 (-2) 2 5 (-7/10) (27/100))
      = (3, List.replicate 3 2) ∧
    dims (KochGenerator.generate trivRaster 2 3 1 300 0 0 0 1)
      = (3, List.replicate 3 2) ∧
    dims (SierpinskiGenerator.generate trivRaster 2 3 1 300 0 0 "recursive"
        200 (fun _ => 0)) = (3, List.replicate 3 2)) :=
  ⟨⟨by norm_num, by norm_num⟩,
    claim_C1 trivRaster 2 3 (by norm_num) (by norm_num) (-2) 2 (-2) 2 5 2
      (-7/10) (27/100) 1 300 0 0 0 1 "recursive" 200 (fun _ => 0)⟩

/-- C6: the Koch subdivision at depth 0 returns exactly the two input
endpoints `[a, b]`, and for every depth `d` it returns a path of
exactly `4^d + 1` points (shared endpoints of the four sub-curves
de-duplicated). -/
theorem claim_C6 (a b : ℝ × ℝ) :
    KochGenerator.koch_curve a b 0 = [a, b] ∧
    ∀ d : ℕ, (KochGenerator.koch_curve a b d).length = 4 ^ d + 1 :=
  ⟨rfl, fun d => KochGenerator.koch_curve_length d a b⟩

/-- C5 (amended): the source has no depth validation and no
`DepthOverflow` error exists anywhere in it; a request with
`depth = 20` is accepted by both recursive curve generators and the
computation proceeds, returning a full `height × width` field, the
Koch recursion expanding to `4^20 + 1` points per side. -/
theorem claim_C5_amended (R : Raster) (width height : ℕ)
    (size start_x start_y angle : ℝ) (line_width num_points : ℕ)
    (choice : ℕ → Fin 3) :
    dims (KochGenerator.generate R width height 20 size start_x start_y
        angle line_width) = (height, List.replicate height width) ∧
    dims (SierpinskiGenerator.generate R width height 20 size start_x
        start_y "recursive" num_points choice)
      = (height, List.replicate height width) ∧
    ∀ a b : ℝ × ℝ, (KochGenerator.koch_curve a b 20).length = 4 ^ 20 + 1 :=
  ⟨KochGenerator.koch_generate_dims R width height 20 size start_x start_y
      angle line_width,
    SierpinskiGenerator.sierpinski_generate_dims R width height 20 size start_x start_y
      "recursive" num_points choice,
    fun a b => KochGenerator.koch_curve_length 20 a b⟩

/-- Counterexample to C5 as stated: at `depth = 20` neither generator
fails — no error value exists in their codomain at all — and the
computation is carried out: a concrete 5×4 request returns a dense
5×4 field from both, and the Koch recursion on a concrete segment
produces its full `4^20 + 1` points. -/
theorem claim_C5_counterexample :
    dims (KochGenerator.generate trivRaster 5 4 20 300 0 0 0 1)
      = (4, List.replicate 4 5) ∧
    dims (SierpinskiGenerator.generate trivRaster 5 4 20 300 0 0
        "recursive" 1000 (fun _ => 0)) = (4, List.replicate 4 5) ∧
    (KochGenerator.koch_curve (0, 0) (1, 0) 20).length = 4 ^ 20 + 1 :=
  ⟨KochGenerator.koch_generate_dims trivRaster 5 4 20 300 0 0 0 1,
    SierpinskiGenerator.sierpinski_generate_dims trivRaster 5 4 20 300 0 0 "recursive"
      1000 (fun _ => 0),
    KochGenerator.koch_curve_length 20 (0, 0) (1, 0)⟩

/-- C10: `SierpinskiGenerator.generate` dispatches on `method` so that
exactly the string `"chaos_game"` selects the chaos-game method and
every other value silently selects the recursive method; the dispatch
is a total if/else, so no method value reaches an error path. -/
theorem claim_C10 (R : Raster) (width height depth : ℕ)
    (size start_x start_y : ℝ) (num_points : ℕ) (choice : ℕ → Fin 3) :
    (SierpinskiGenerator.generate R width height depth size start_x start_y
        "chaos_game" num_points choice
      = SierpinskiGenerator.chaos_game_method R width height size start_x
        start_y num_points choice) ∧
    ∀ method : String, method ≠ "chaos_game" →
      SierpinskiGenerator.generate R width height depth size start_x start_y
          method num_points choice
        = SierpinskiGenerator.recursive_method R width height depth size
          start_x start_y :=
  ⟨by simp [SierpinskiGenerator.generate],
    fun method hm => by simp [SierpinskiGenerator.generate, hm]⟩

/-- Witness for C10: the unrecognized selector `"bogus"` (and the
documented `"recursive"`) both take the recursive branch. -/
theorem claim_C10_witness :
    ("bogus" ≠ "chaos_game") ∧
    SierpinskiGenerator.generate trivRaster 2 2 1 300 0 0 "bogus" 200
        (fun _ => 0)
      = SierpinskiGenerator.recursive_method trivRaster 2 2 1 300 0 0 :=
  ⟨by decide,
    (claim_C10 trivRaster 2 2 1 300 0 0 200 (fun _ => 0)).2 "bogus"
      (by decide)⟩

/-- C2 (amended): in Mandelbrot a pixel is assigned exactly `0` when
the loop's final index is `max_iterations - 1` — which happens both
when bailout never triggers (the claim's case) and when bailout first
triggers at iteration index `max_iterations - 1`; so `0` is not
reserved to non-escaping pixels.  In Julia a pixel that never bails
out is assigned the final loop index `max_iterations - 1`, not `0`,
and escaping pixels get the plain break index, never a smooth value. -/
theorem claim_C2_amended :
    (∀ (c : ℚ × ℚ) (r : ℚ) (m : ℕ), 1 ≤ m →
      (∀ k, k < m → MandelbrotGenerator.bailout (iterZ c (0, 0) k) r = false) →
      MandelbrotGenerator.pixelValue c m r = some 0) ∧
    (∀ (c : ℚ × ℚ) (r : ℚ) (m : ℕ), 1 ≤ m →
      (∀ j, j < m - 1 →
        MandelbrotGenerator.bailout (iterZ c (0, 0) j) r = false) →
      MandelbrotGenerator.bailout (iterZ c (0, 0) (m - 1)) r = true →
      MandelbrotGenerator.pixelValue c m r = some 0) ∧
    (∀ (z0 c : ℚ × ℚ) (m : ℕ), 1 ≤ m →
      (∀ k, k < m → JuliaGenerator.bailout (iterZ c z0 k) = false) →
      JuliaGenerator.pixelValue z0 c m = ((m - 1 : ℕ) : ℚ)) := by
  refine ⟨?_, ?_, ?_⟩
  · intro c r m _ hnb
    have hl := escapeLoop_no_bail (fun z => MandelbrotGenerator.bailout z r)
      c m 0 (0, 0) hnb
    simp only [MandelbrotGenerator.pixelValue, MandelbrotGenerator.mandelLoop]
    rw [hl]
    simp
  · intro c r m hm hpre hbail
    have hl := escapeLoop_first_bail (fun z => MandelbrotGenerator.bailout z r)
      c (m - 1) m 0 (0, 0) (by omega) hpre hbail
    simp only [MandelbrotGenerator.pixelValue, MandelbrotGenerator.mandelLoop]
    rw [hl]
    simp
  · intro z0 c m _ hnb
    have hl := escapeLoop_no_bail (fun z => JuliaGenerator.bailout z)
      c m 0 z0 hnb
    simp only [JuliaGenerator.pixelValue]
    rw [hl]
    simp

/-- Witness for C2 (amended), covering all three conjuncts at concrete
pixels: the non-escaping Mandelbrot pixel `c = 0` with
`max_iterations = 3`; the Mandelbrot pixel `c = -16` that bails out
exactly at the final index of `max_iterations = 2` yet is assigned
`0`; and the non-escaping Julia pixel `z0 = 0, c = 0` assigned `2`. -/
theorem claim_C2_witness :
    ((1 : ℕ) ≤ 3 ∧
      (∀ k, k < 3 →
        MandelbrotGenerator.bailout (iterZ (0, 0) (0, 0) k) 2 = false) ∧
      MandelbrotGenerator.pixelValue (0, 0) 3 2 = some 0) ∧
    ((1 : ℕ) ≤ 2 ∧
      (∀ j, j < 2 - 1 →
        MandelbrotGenerator.bailout (iterZ (-16, 0) (0, 0) j) 2 = false) ∧
      MandelbrotGenerator.bailout (iterZ (-16, 0) (0, 0) (2 - 1)) 2 = true ∧
      MandelbrotGenerator.pixelValue (-16, 0) 2 2 = some 0) ∧
    ((1 : ℕ) ≤ 3 ∧
      (∀ k, k < 3 → JuliaGenerator.bailout (iterZ (0, 0) (0, 0) k) = false) ∧
      JuliaGenerator.pixelValue (0, 0) (0, 0) 3 = ((3 - 1 : ℕ) : ℚ)) := by
  have hm1 : ∀ k, k < 3 →
      MandelbrotGenerator.bailout (iterZ (0, 0) (0, 0) k) 2 = false := by
    intro k hk
    interval_cases k <;> norm_num [MandelbrotGenerator.bailout, iterZ, stepZ, cMul, cAdd, absSq]
  have hm2 : ∀ j, j < 2 - 1 →
      MandelbrotGenerator.bailout (iterZ (-16, 0) (0, 0) j) 2 = false := by
    intro j hj
    interval_cases j <;> norm_num [MandelbrotGenerator.bailout, iterZ, stepZ, cMul, cAdd, absSq]
  have hm3 : MandelbrotGenerator.bailout (iterZ (-16, 0) (0, 0) (2 - 1)) 2
      = true := by
    norm_num [MandelbrotGenerator.bailout, iterZ, stepZ, cMul, cAdd, absSq]
  have hj1 : ∀ k, k < 3 →
      JuliaGenerator.bailout (iterZ (0, 0) (0, 0) k) = false := by
    intro k hk
    interval_cases k <;> norm_num [JuliaGenerator.bailout, iterZ, stepZ, cMul, cAdd, absSq]
  exact ⟨⟨by norm_num, hm1,
      claim_C2_amended.1 (0, 0) 2 3 (by norm_num) hm1⟩,
    ⟨by norm_num, hm2, hm3,
      claim_C2_amended.2.1 (-16, 0) 2 2 (by norm_num) hm2 hm3⟩,
    ⟨by norm_num, hj1,
      claim_C2_amended.2.2 (0, 0) (0, 0) 3 (by norm_num) hj1⟩⟩

/-- Counterexample to C2 as stated: the Julia pixel `z0 = 0` with
`c = 0` and `max_iterations = 3` never triggers bailout, yet its
assigned value is `2`, not `0`. -/
theorem claim_C2_counterexample :
    JuliaGenerator.bailout (iterZ (0, 0) (0, 0) 0) = false ∧
    JuliaGenerator.bailout (iterZ (0, 0) (0, 0) 1) = false ∧
    JuliaGenerator.bailout (iterZ (0, 0) (0, 0) 2) = false ∧
    JuliaGenerator.pixelValue (0, 0) (0, 0) 3 ≠ 0 := by
  refine ⟨by norm_num [JuliaGenerator.bailout, iterZ, stepZ, cMul, cAdd, absSq], by norm_num [JuliaGenerator.bailout, iterZ, stepZ, cMul, cAdd, absSq], by norm_num [JuliaGenerator.bailout, iterZ, stepZ, cMul, cAdd, absSq], ?_⟩
  norm_num [JuliaGenerator.pixelValue, escapeLoop, JuliaGenerator.bailout,
    absSq, stepZ, cMul, cAdd]

/-- C3 (amended): Mandelbrot's bailout test is `|z| > escape_radius`
with the supplied `escape_radius`, for every `escape_radius > 0`;
Julia's bailout test is the hardcoded `|z| > 2` — its generate takes
no `escape_radius` parameter, so no supplied radius ever reaches it. -/
theorem claim_C3_amended :
    (∀ (z : ℚ × ℚ) (escape_radius : ℚ), 0 < escape_radius →
      (MandelbrotGenerator.bailout z escape_radius = true ↔
        (escape_radius : ℝ) < Real.sqrt ((absSq z : ℚ) : ℝ))) ∧
    (∀ z : ℚ × ℚ, JuliaGenerator.bailout z = true ↔
      (2 : ℝ) < Real.sqrt ((absSq z : ℚ) : ℝ)) := by
  constructor
  · intro z r hr
    have hb : MandelbrotGenerator.bailout z r = true ↔ absSq z > r * r := by
      simp [MandelbrotGenerator.bailout]
    rw [hb]
    exact bailout_iff_abs_gt z r (le_of_lt hr)
  · intro z
    have hb : JuliaGenerator.bailout z = true ↔ absSq z > 2 * 2 := by
      norm_num [JuliaGenerator.bailout]
    rw [hb]
    have := bailout_iff_abs_gt z 2 (by norm_num)
    simpa using this

/-- Witness for C3 (amended) at `z = 3, escape_radius = 2`. -/
theorem claim_C3_witness :
    (0 < (2 : ℚ)) ∧
    (MandelbrotGenerator.bailout (3, 0) 2 = true ↔
      ((2 : ℚ) : ℝ) < Real.sqrt ((absSq ((3 : ℚ), (0 : ℚ)) : ℚ) : ℝ)) :=
  ⟨by norm_num, claim_C3_amended.1 (3, 0) 2 (by norm_num)⟩

/-- Counterexample to C3 as stated: with supplied
`escape_radius = 3`, the point `z = 5/2` does not satisfy
`|z| > escape_radius`, yet Julia's actual test fires (it compares with
the hardcoded `2`), so the Julia pixel `z0 = 5/2` breaks immediately
and is assigned `0` instead of iterating. -/
theorem claim_C3_counterexample :
    JuliaGenerator.bailout (5/2, 0) = true ∧
    JuliaGenerator.bailoutSpec (5/2, 0) 3 = false ∧
    JuliaGenerator.pixelValue (5/2, 0) (0, 0) 5 = 0 := by
  refine ⟨by norm_num [JuliaGenerator.bailout, absSq],
    by norm_num [JuliaGenerator.bailoutSpec, absSq], ?_⟩
  norm_num [JuliaGenerator.pixelValue, escapeLoop, JuliaGenerator.bailout,
    absSq, stepZ, cMul, cAdd]

/-- C4 (amended): the source has no clamp; instead, for every
`escape_radius ≥ 1` a bailout state always satisfies
`|z| > escape_radius ≥ 1`, so the log-log computation stays in its
domain and the pixel value is never the NaN value `none`.  For
`escape_radius < 1` the guard the spec describes does not exist and a
NaN is written (see the counterexample). -/
theorem claim_C4_amended (c : ℚ × ℚ) (m : ℕ) (r : ℚ) (hr : 1 ≤ r) :
    MandelbrotGenerator.pixelValue c m r ≠ none := by
  simp only [MandelbrotGenerator.pixelValue, MandelbrotGenerator.mandelLoop]
  split
  · simp
  · next hne =>
      split
      · next hle =>
          exfalso
          rcases escapeLoop_exhaust_or_bail
              (fun z => MandelbrotGenerator.bailout z r) c m 0 (0, 0) with h | h
          · exact hne (by simpa using h)
          · have hgt : absSq (escapeLoop
                (fun z => MandelbrotGenerator.bailout z r) c 0 m (0, 0)).2
                > r * r := by
              simpa [MandelbrotGenerator.bailout] using h
            have h1 : (1 : ℚ) ≤ r * r := by nlinarith
            linarith
      · simp

/-- Witness for C4 (amended) at the default radius `2`. -/
theorem claim_C4_witness :
    ((1 : ℚ) ≤ 2) ∧ MandelbrotGenerator.pixelValue (0, 0) 3 2 ≠ none :=
  ⟨by norm_num, claim_C4_amended (0, 0) 3 2 (by norm_num)⟩

/-- Counterexample to C4 as stated: with `escape_radius = 1/2` the
pixel `c = 3/4` bails out at `z = 3/4`, i.e. with `|z| ≤ 1`, and no
clamp intervenes: the smooth-coloring log-log step leaves its domain
and the written value is the NaN value `none`. -/
theorem claim_C4_counterexample :
    MandelbrotGenerator.bailout (iterZ (3/4, 0) (0, 0) 1) (1/2) = true ∧
    absSq (iterZ (3/4, 0) (0, 0) 1) ≤ 1 ∧
    MandelbrotGenerator.pixelValue (3/4, 0) 5 (1/2) = none := by
  refine ⟨by norm_num [MandelbrotGenerator.bailout, iterZ, stepZ, cMul, cAdd, absSq], by norm_num [iterZ, stepZ, cMul, cAdd, absSq], ?_⟩
  norm_num [MandelbrotGenerator.pixelValue, MandelbrotGenerator.mandelLoop,
    escapeLoop, MandelbrotGenerator.bailout, absSq, stepZ, cMul, cAdd]

/-! ## Chaos-game hull invariant (helpers for C7) -/

namespace SierpinskiGenerator

open FractalGen

theorem pair_combo (a b : ℝ) (p q : ℝ × ℝ) :
    a • p + b • q = (a * p.1 + b * q.1, a * p.2 + b * q.2) := by
  apply Prod.ext <;> simp [Prod.smul_fst, Prod.smul_snd, smul_eq_mul]

theorem triangleVertices_length (w h : ℕ) (s sx sy : ℝ) :
    (triangleVertices w h s sx sy).length = 3 := by
  simp [triangleVertices]

theorem getD_triangleVertices_mem (w h : ℕ) (s sx sy : ℝ) (j : Fin 3) :
    (triangleVertices w h s sx sy).getD (j : ℕ) (0, 0)
      ∈ triangleVertices w h s sx sy := by
  have hlt : (j : ℕ) < (triangleVertices w h s sx sy).length := by
    rw [triangleVertices_length]
    exact j.isLt
  rw [List.getD_eq_getElem _ _ hlt]
  exact List.getElem_mem hlt

/-- The chaos-game update is the convex combination
`(1/2)·current + (1/2)·vertex`. -/
theorem chaosPoint_succ_combo (w h : ℕ) (s sx sy : ℝ) (choice : ℕ → Fin 3)
    (i : ℕ) :
    chaosPoint w h s sx sy choice (i + 1)
      = (1/2 : ℝ) • chaosPoint w h s sx sy choice i
        + (1/2 : ℝ) • (triangleVertices w h s sx sy).getD (choice i) (0, 0) := by
  simp only [chaosPoint, pair_combo, Prod.mk.injEq]
  constructor <;> ring

/-- Every chaos-game current point — the centroid start included —
lies in the convex hull of the three triangle vertices. -/
theorem chaosPoint_mem_hull (w h : ℕ) (s sx sy : ℝ) (choice : ℕ → Fin 3) :
    ∀ i, chaosPoint w h s sx sy choice i
      ∈ convexHull ℝ {q : ℝ × ℝ | q ∈ triangleVertices w h s sx sy} := by
  have hsub : ∀ q, q ∈ triangleVertices w h s sx sy →
      q ∈ convexHull ℝ {q : ℝ × ℝ | q ∈ triangleVertices w h s sx sy} := by
    intro q hq
    exact subset_convexHull ℝ _ hq
  have hconv := convex_convexHull ℝ
    {q : ℝ × ℝ | q ∈ triangleVertices w h s sx sy}
  intro i
  induction i with
  | zero =>
      have hA : ((((w / 2 : ℕ) : ℝ) + sx - s / 2,
          ((h / 2 : ℕ) : ℝ) + sy - s * Real.sqrt 3 / 2 / 3) : ℝ × ℝ)
          ∈ convexHull ℝ {q : ℝ × ℝ | q ∈ triangleVertices w h s sx sy} := by
        apply hsub
        simp [triangleVertices]
      have hB : ((((w / 2 : ℕ) : ℝ) + sx + s / 2,
          ((h / 2 : ℕ) : ℝ) + sy - s * Real.sqrt 3 / 2 / 3) : ℝ × ℝ)
          ∈ convexHull ℝ {q : ℝ × ℝ | q ∈ triangleVertices w h s sx sy} := by
        apply hsub
        simp [triangleVertices]
      have hC : ((((w / 2 : ℕ) : ℝ) + sx,
          ((h / 2 : ℕ) : ℝ) + sy + 2 * (s * Real.sqrt 3 / 2) / 3) : ℝ × ℝ)
          ∈ convexHull ℝ {q : ℝ × ℝ | q ∈ triangleVertices w h s sx sy} := by
        apply hsub
        simp [triangleVertices]
      have hD := hconv hB hC (by norm_num : (0:ℝ) ≤ 1/2)
        (by norm_num : (0:ℝ) ≤ 1/2) (by norm_num)
      have hE := hconv hA hD (by norm_num : (0:ℝ) ≤ 1/3)
        (by norm_num : (0:ℝ) ≤ 2/3) (by norm_num)
      have heq : chaosPoint w h s sx sy choice 0
          = (1/3 : ℝ) • ((((w / 2 : ℕ) : ℝ) + sx - s / 2,
              ((h / 2 : ℕ) : ℝ) + sy - s * Real.sqrt 3 / 2 / 3) : ℝ × ℝ)
            + (2/3 : ℝ) • ((1/2 : ℝ) • ((((w / 2 : ℕ) : ℝ) + sx + s / 2,
                ((h / 2 : ℕ) : ℝ) + sy - s * Real.sqrt 3 / 2 / 3) : ℝ × ℝ)
              + (1/2 : ℝ) • ((((w / 2 : ℕ) : ℝ) + sx,
                ((h / 2 : ℕ) : ℝ) + sy + 2 * (s * Real.sqrt 3 / 2) / 3) : ℝ × ℝ)) := by
        simp only [chaosPoint, pair_combo, Prod.mk.injEq]
        constructor <;> ring
      rw [heq]
      exact hE
  | succ i ih =>
      have ht := hsub _ (getD_triangleVertices_mem w h s sx sy (choice i))
      have hstep := hconv ih ht (by norm_num : (0:ℝ) ≤ 1/2)
        (by norm_num : (0:ℝ) ≤ 1/2) (by norm_num)
      rw [chaosPoint_succ_combo]
      exact hstep

end SierpinskiGenerator

/-- C7: in the chaos-game Sierpinski method, for every `num_points`
and every sequence of random vertex choices, every point recorded
after the burn-in phase lies within the convex hull of the three
triangle vertices (the current point starts at the centroid — a convex
combination of the vertices — and each step moves it halfway toward a
vertex, which cannot leave the hull). -/
theorem claim_C7 (width height : ℕ) (size start_x start_y : ℝ)
    (choice : ℕ → Fin 3) (num_points : ℕ) (p : ℝ × ℝ)
    (hp : p ∈ SierpinskiGenerator.recordedPoints width height size start_x
      start_y choice num_points) :
    p ∈ convexHull ℝ {q : ℝ × ℝ |
      q ∈ SierpinskiGenerator.triangleVertices width height size start_x
        start_y} := by
  rw [SierpinskiGenerator.recordedPoints, List.mem_filterMap] at hp
  obtain ⟨i, _, hfi⟩ := hp
  by_cases h100 : 100 < i
  · rw [if_pos h100] at hfi
    obtain rfl := Option.some.inj hfi
    exact SierpinskiGenerator.chaosPoint_mem_hull width height size start_x
      start_y choice (i + 1)
  · rw [if_neg h100] at hfi
    exact absurd hfi (by simp)

/-- Witness for C7: the first recorded point of a concrete run
(102 iterations, constant vertex choice) is recorded and lies in the
hull. -/
theorem claim_C7_witness :
    SierpinskiGenerator.chaosPoint 2 2 300 0 0 (fun _ => 0) 102
      ∈ SierpinskiGenerator.recordedPoints 2 2 300 0 0 (fun _ => 0) 102 ∧
    SierpinskiGenerator.chaosPoint 2 2 300 0 0 (fun _ => 0) 102
      ∈ convexHull ℝ {q : ℝ × ℝ |
        q ∈ SierpinskiGenerator.triangleVertices 2 2 300 0 0} := by
  have hmem : SierpinskiGenerator.chaosPoint 2 2 300 0 0 (fun _ => 0) 102
      ∈ SierpinskiGenerator.recordedPoints 2 2 300 0 0 (fun _ => 0) 102 := by
    rw [SierpinskiGenerator.recordedPoints, List.mem_filterMap]
    exact ⟨101, by simp, by norm_num⟩
  exact ⟨hmem, claim_C7 2 2 300 0 0 (fun _ => 0) 102 _ hmem⟩

/-! ## Normalization helpers (for C8 and C9) -/

namespace FractalGenerator

theorem normalize_eq_nil (data : List (List ℚ)) (hf : data.flatten = []) :
    normalize data = data := by
  unfold normalize
  rw [hf]

theorem normalize_eq_cons (data : List (List ℚ)) (x : ℚ) (xs : List ℚ)
    (hf : data.flatten = x :: xs) :
    normalize data =
      if xs.foldl min x < xs.foldl max x then
        data.map (List.map (linmap (xs.foldl min x) (xs.foldl max x)))
      else data := by
  unfold normalize
  rw [hf]
  rfl

theorem flatten_map_map (f : ℚ → ℚ) (data : List (List ℚ)) :
    (data.map (List.map f)).flatten = data.flatten.map f := by
  induction data with
  | nil => simp
  | cons r rest ih =>
      rw [List.map_cons, List.flatten_cons, List.flatten_cons,
        List.map_append, ih]

theorem init_le_foldl_max (l : List ℚ) : ∀ z : ℚ, z ≤ l.foldl max z := by
  induction l with
  | nil => intro z; simp
  | cons w ws ih =>
      intro z
      rw [List.foldl_cons]
      exact le_trans (le_max_left z w) (ih (max z w))

theorem mem_le_foldl_max (l : List ℚ) : ∀ z v : ℚ, v ∈ l → v ≤ l.foldl max z := by
  induction l with
  | nil => intro z v hv; cases hv
  | cons w ws ih =>
      intro z v hv
      rw [List.foldl_cons]
      rcases List.mem_cons.mp hv with rfl | hv'
      · exact le_trans (le_max_right z v) (init_le_foldl_max ws (max z v))
      · exact ih (max z w) v hv'

theorem foldl_min_le_init (l : List ℚ) : ∀ z : ℚ, l.foldl min z ≤ z := by
  induction l with
  | nil => intro z; simp
  | cons w ws ih =>
      intro z
      rw [List.foldl_cons]
      exact le_trans (ih (min z w)) (min_le_left z w)

theorem foldl_min_le_mem (l : List ℚ) : ∀ z v : ℚ, v ∈ l → l.foldl min z ≤ v := by
  induction l with
  | nil => intro z v hv; cases hv
  | cons w ws ih =>
      intro z v hv
      rw [List.foldl_cons]
      rcases List.mem_cons.mp hv with rfl | hv'
      · exact le_trans (foldl_min_le_init ws (min z v)) (min_le_right z v)
      · exact ih (min z w) v hv'

theorem foldl_max_mem (l : List ℚ) : ∀ z : ℚ, l.foldl max z ∈ z :: l := by
  induction l with
  | nil => intro z; simp
  | cons w ws ih =>
      intro z
      rw [List.foldl_cons]
      rcases List.mem_cons.mp (ih (max z w)) with h | h
      · rcases max_choice z w with hz | hw
        · rw [h, hz]
          exact List.mem_cons_self _ _
        · rw [h, hw]
          exact List.mem_cons_of_mem _ (List.mem_cons_self _ _)
      · exact List.mem_cons_of_mem _ (List.mem_cons_of_mem _ h)

theorem foldl_min_mem (l : List ℚ) : ∀ z : ℚ, l.foldl min z ∈ z :: l := by
  induction l with
  | nil => intro z; simp
  | cons w ws ih =>
      intro z
      rw [List.foldl_cons]
      rcases List.mem_cons.mp (ih (min z w)) with h | h
      · rcases min_choice z w with hz | hw
        · rw [h, hz]
          exact List.mem_cons_self _ _
        · rw [h, hw]
          exact List.mem_cons_of_mem _ (List.mem_cons_self _ _)
      · exact List.mem_cons_of_mem _ (List.mem_cons_of_mem _ h)

theorem foldl_max_map (f : ℚ → ℚ) (hf : ∀ a b, f (max a b) = max (f a) (f b))
    (l : List ℚ) : ∀ z : ℚ, (l.map f).foldl max (f z) = f (l.foldl max z) := by
  induction l with
  | nil => intro z; rfl
  | cons w ws ih =>
      intro z
      rw [List.map_cons, List.foldl_cons, List.foldl_cons, ← hf, ih]

theorem foldl_min_map (f : ℚ → ℚ) (hf : ∀ a b, f (min a b) = min (f a) (f b))
    (l : List ℚ) : ∀ z : ℚ, (l.map f).foldl min (f z) = f (l.foldl min z) := by
  induction l with
  | nil => intro z; rfl
  | cons w ws ih =>
      intro z
      rw [List.map_cons, List.foldl_cons, List.foldl_cons, ← hf, ih]

theorem linmap_mono (mn mx : ℚ) (h : mn < mx) : Monotone (linmap mn mx) := by
  intro a b hab
  have hd : (0:ℚ) < mx - mn := by linarith
  simp only [linmap]
  gcongr

end FractalGenerator

/-- C8 (amended): on a nonempty field whose values are not all equal
(`min < max`), `normalize` applies the linear map
`(v - min)/(max - min)` elementwise, sending every value into `[0,1]`
with the attained minimum mapped to `0` and the attained maximum to
`1`.  When `max == min` (a constant field) the data is returned
unchanged — there is no division by zero, but the values are *not*
mapped to a fixed midpoint of `[0,1]`. -/
theorem claim_C8_amended (data : List (List ℚ)) (x : ℚ) (xs : List ℚ)
    (hf : data.flatten = x :: xs) :
    (xs.foldl min x < xs.foldl max x →
      FractalGenerator.normalize data
          = data.map (List.map
            (FractalGenerator.linmap (xs.foldl min x) (xs.foldl max x))) ∧
      (∀ v ∈ data.flatten,
        0 ≤ FractalGenerator.linmap (xs.foldl min x) (xs.foldl max x) v ∧
          FractalGenerator.linmap (xs.foldl min x) (xs.foldl max x) v ≤ 1) ∧
      FractalGenerator.linmap (xs.foldl min x) (xs.foldl max x)
        (xs.foldl min x) = 0 ∧
      FractalGenerator.linmap (xs.foldl min x) (xs.foldl max x)
        (xs.foldl max x) = 1 ∧
      xs.foldl min x ∈ data.flatten ∧ xs.foldl max x ∈ data.flatten) ∧
    (¬ xs.foldl min x < xs.foldl max x →
      FractalGenerator.normalize data = data) := by
  constructor
  · intro hlt
    have hd : (0:ℚ) < xs.foldl max x - xs.foldl min x := by linarith
    refine ⟨?_, ?_, ?_, ?_, ?_, ?_⟩
    · rw [FractalGenerator.normalize_eq_cons data x xs hf, if_pos hlt]
    · intro v hv
      rw [hf] at hv
      have hmn : xs.foldl min x ≤ v := by
        rcases List.mem_cons.mp hv with rfl | hv'
        · exact FractalGenerator.foldl_min_le_init xs v
        · exact FractalGenerator.foldl_min_le_mem xs x v hv'
      have hmx : v ≤ xs.foldl max x := by
        rcases List.mem_cons.mp hv with rfl | hv'
        · exact FractalGenerator.init_le_foldl_max xs v
        · exact FractalGenerator.mem_le_foldl_max xs x v hv'
      simp only [FractalGenerator.linmap]
      constructor
      · exact div_nonneg (by linarith) (by linarith)
      · rw [div_le_one hd]
        linarith
    · simp [FractalGenerator.linmap]
    · simp only [FractalGenerator.linmap]
      exact div_self (ne_of_gt hd)
    · rw [hf]
      exact FractalGenerator.foldl_min_mem xs x
    · rw [hf]
      exact FractalGenerator.foldl_max_mem xs x
  · intro hlt
    rw [FractalGenerator.normalize_eq_cons data x xs hf, if_neg hlt]

/-- Witness for C8 (amended) on the concrete field `[[0, 2]]`:
`min = 0 < max = 2` and normalize rescales elementwise. -/
theorem claim_C8_witness :
    ([[(0:ℚ), 2]] : List (List ℚ)).flatten = [(0:ℚ), 2] ∧
    ([(2:ℚ)].foldl min 0 < [(2:ℚ)].foldl max 0) ∧
    FractalGenerator.normalize [[0, 2]]
      = ([[(0:ℚ), 2]] : List (List ℚ)).map (List.map
          (FractalGenerator.linmap ([(2:ℚ)].foldl min 0)
            ([(2:ℚ)].foldl max 0))) := by
  have hf : ([[(0:ℚ), 2]] : List (List ℚ)).flatten = [(0:ℚ), 2] := by simp
  have hlt : ([(2:ℚ)].foldl min 0 < [(2:ℚ)].foldl max 0) := by
    norm_num [List.foldl, min_def, max_def]
  exact ⟨hf, hlt, ((claim_C8_amended [[0, 2]] 0 [2] hf).1 hlt).1⟩

/-- Counterexample to C8 as stated: the constant field `[[5]]` has
`max == min`, and `normalize` returns it unchanged — its value stays
`5`, which lies outside `[0,1]` and therefore is no fixed midpoint of
`[0,1]`. -/
theorem claim_C8_counterexample :
    FractalGenerator.normalize [[5]] = [[5]] ∧ ¬ ((5:ℚ) ≤ 1) := by
  constructor
  · simp [FractalGenerator.normalize]
  · norm_num

/-- C9: the normalization step is idempotent —
`normalize (normalize x) = normalize x` for every field `x`; an
already-normalized field is a fixed point. -/
theorem claim_C9 (data : List (List ℚ)) :
    FractalGenerator.normalize (FractalGenerator.normalize data)
      = FractalGenerator.normalize data := by
  rcases hf : data.flatten with _ | ⟨x, xs⟩
  · have h1 := FractalGenerator.normalize_eq_nil data hf
    rw [h1]
    exact h1
  · by_cases hlt : xs.foldl min x < xs.foldl max x
    · have hd : (0:ℚ) < xs.foldl max x - xs.foldl min x := by linarith
      have hmono := FractalGenerator.linmap_mono (xs.foldl min x)
        (xs.foldl max x) hlt
      have h1 : FractalGenerator.normalize data
          = data.map (List.map
            (FractalGenerator.linmap (xs.foldl min x) (xs.foldl max x))) := by
        rw [FractalGenerator.normalize_eq_cons data x xs hf, if_pos hlt]
      have hf2 : (FractalGenerator.normalize data).flatten
          = FractalGenerator.linmap (xs.foldl min x) (xs.foldl max x) x
            :: xs.map (FractalGenerator.linmap (xs.foldl min x)
              (xs.foldl max x)) := by
        rw [h1, FractalGenerator.flatten_map_map, hf, List.map_cons]
      have hmax := FractalGenerator.foldl_max_map
        (FractalGenerator.linmap (xs.foldl min x) (xs.foldl max x))
        (fun a b => hmono.map_max) xs x
      have hmin := FractalGenerator.foldl_min_map
        (FractalGenerator.linmap (xs.foldl min x) (xs.foldl max x))
        (fun a b => hmono.map_min) xs x
      have hmaxval : FractalGenerator.linmap (xs.foldl min x) (xs.foldl max x)
          (xs.foldl max x) = 1 := by
        simp only [FractalGenerator.linmap]
        exact div_self (ne_of_gt hd)
      have hminval : FractalGenerator.linmap (xs.foldl min x) (xs.foldl max x)
          (xs.foldl min x) = 0 := by
        simp [FractalGenerator.linmap]
      have hlt2 : (xs.map (FractalGenerator.linmap (xs.foldl min x)
            (xs.foldl max x))).foldl min
            (FractalGenerator.linmap (xs.foldl min x) (xs.foldl max x) x)
          < (xs.map (FractalGenerator.linmap (xs.foldl min x)
            (xs.foldl max x))).foldl max
            (FractalGenerator.linmap (xs.foldl min x) (xs.foldl max x) x) := by
        rw [hmax, hmin, hmaxval, hminval]
        norm_num
      rw [FractalGenerator.normalize_eq_cons (FractalGenerator.normalize data)
        _ _ hf2, if_pos hlt2, hmin, hmax, hminval, hmaxval]
      have hid : FractalGenerator.linmap 0 1 = fun v : ℚ => v := by
        funext v
        simp [FractalGenerator.linmap]
      rw [hid]
      simp
    · have h1 : FractalGenerator.normalize data = data := by
        rw [FractalGenerator.normalize_eq_cons data x xs hf, if_neg hlt]
      rw [h1]
      exact h1
